
import Mathlib

/-!
Shallow embedding of the luxfi/metric Go package.

Modelling conventions used throughout this file:
* Go `float64` values are modelled as `ℚ`. Every numeric value appearing
  in the verified scenarios is exactly representable both as a binary
  float and as a rational, so the arithmetic identities proved here hold
  verbatim for the Go code on those inputs.
* Go maps are modelled as insertion-ordered association lists; Go map
  iteration order is unspecified, the list order is the determinization
  used here.
* Atomic CAS retry loops (metricCounter.Add, histogram sum updates, ...)
  are modelled by their sequential effect, which is what a linearizable
  execution delivers.
* `+Inf` histogram bucket bounds are modelled by `Option ℚ` with `none`
  standing for positive infinity.
-/

/-- Metric type tag, mirroring `MetricType` in types.go. The Go zero
value of the type is `MetricTypeCounter`. -/
inductive MetricType where
  | counter
  | gauge
  | histogram
  | summary
  | untyped
deriving DecidableEq, Repr

/-- Lowercase rendering of a metric type, mirroring `MetricType.String` in types.go. -/
def MetricType.text : MetricType → String
  | .counter => "counter"
  | .gauge => "gauge"
  | .histogram => "histogram"
  | .summary => "summary"
  | .untyped => "untyped"

/-- Mirrors `LabelPair` in types.go. -/
structure LabelPair where
  name : String
  value : String
deriving DecidableEq, Repr

/-- Mirrors `Bucket` in types.go; `none` as upper bound stands for `+Inf`. -/
structure Bucket where
  upperBound : Option ℚ
  cumulativeCount : ℕ
deriving DecidableEq, Repr

/-- Mirrors `Quantile` in types.go. -/
structure Quantile where
  quantile : ℚ
  value : ℚ
deriving DecidableEq, Repr

/-- Mirrors `MetricValue` in types.go; unused fields keep Go zero values. -/
structure MetricValue where
  value : ℚ := 0
  sampleCount : ℕ := 0
  sampleSum : ℚ := 0
  buckets : List Bucket := []
  quantiles : List Quantile := []
deriving DecidableEq, Repr

/-- Mirrors `Metric` in types.go. -/
structure Metric where
  labels : List LabelPair
  value : MetricValue
deriving DecidableEq, Repr

/-- Mirrors `MetricFamily` in types.go. -/
structure MetricFamily where
  name : String
  help : String
  type : MetricType
  metrics : List Metric
deriving DecidableEq, Repr

/-! ## Counter (metricCounter in the native implementation) -/

/-- Mirrors `metricCounter`: the `value` field holds float64 bits in Go and
is read back with `math.Float64frombits`; here the float is a rational. -/
structure MetricCounter where
  value : ℚ
  name : String
  help : String
deriving DecidableEq, Repr

/-- Mirrors `newCounter`. -/
def newCounter (name help : String) : MetricCounter :=
  { value := 0, name := name, help := help }

/-- Mirrors `metricCounter.Add`: CAS loop whose sequential effect is `value + val`. -/
def MetricCounter.add (c : MetricCounter) (val : ℚ) : MetricCounter :=
  { c with value := c.value + val }

/-- Mirrors `metricCounter.Inc`, defined as `Add(1)`. -/
def MetricCounter.inc (c : MetricCounter) : MetricCounter :=
  c.add 1

/-- Mirrors `metricCounter.Get`. -/
def MetricCounter.get (c : MetricCounter) : ℚ :=
  c.value

/-- A single counter mutation: the only mutating operations are Inc and Add. -/
inductive CtrOp where
  | inc
  | add (v : ℚ)
deriving DecidableEq, Repr

/-- Applies a sequence of counter mutations in order. -/
def MetricCounter.applyOps (c : MetricCounter) (ops : List CtrOp) : MetricCounter :=
  ops.foldl (fun c op => match op with | .inc => c.inc | .add v => c.add v) c

/-- Value contributed by one counter operation. -/
def CtrOp.delta : CtrOp → ℚ
  | .inc => 1
  | .add v => v

/-! ## Registry (part_015, the native registry) -/

/-- Mirrors `labeledCounter`: labels are an association list standing for
the Go `Labels` map. -/
structure LabeledCounter where
  labels : List (String × String)
  counter : MetricCounter
deriving DecidableEq, Repr

/-- Mirrors `metricGauge` (float64 value as ℚ). -/
structure MetricGauge where
  value : ℚ
  name : String
  help : String
deriving DecidableEq, Repr

/-- Mirrors `labeledGauge`. -/
structure LabeledGauge where
  labels : List (String × String)
  gauge : MetricGauge
deriving DecidableEq, Repr

/-- Mirrors `metricHistogram` (minus the mutex, which guards the modelled
sequential state). -/
structure MetricHistogram where
  name : String
  help : String
  buckets : List ℚ
  bucketCounts : List ℕ
  count : ℕ
  sum : ℚ
deriving DecidableEq, Repr

/-- Mirrors `labeledHistogram`. -/
structure LabeledHistogram where
  labels : List (String × String)
  histogram : MetricHistogram
deriving DecidableEq, Repr

/-- Mirrors `metricSummary` (ring buffer reservoir). -/
structure MetricSummary where
  name : String
  help : String
  count : ℕ
  sum : ℚ
  objectives : List ℚ
  samples : List ℚ
  sampleIdx : ℕ
  maxSamples : ℕ
deriving DecidableEq, Repr

/-- Mirrors `labeledSummary`. -/
structure LabeledSummary where
  labels : List (String × String)
  summary : MetricSummary
deriving DecidableEq, Repr

/-- Mirrors `registry`: per kind, family name to (label key to entry). -/
structure Registry where
  counters : List (String × List (String × LabeledCounter))
  gauges : List (String × List (String × LabeledGauge))
  histograms : List (String × List (String × LabeledHistogram))
  summaries : List (String × List (String × LabeledSummary))
deriving Repr

/-- Mirrors `newRegistry`. -/
def newRegistry : Registry :=
  { counters := [], gauges := [], histograms := [], summaries := [] }

/-- Replaces the binding of `k` or appends it, modelling Go map assignment. -/
def assocSet (k : String) (v : α) : List (String × α) → List (String × α)
  | [] => [(k, v)]
  | (k₂, v₂) :: rest =>
      if k₂ = k then (k, v) :: rest else (k₂, v₂) :: assocSet k v rest

/-- Mirrors `labelsKeyFromLabels`: canonical key of a label set, sorted by
label name. -/
def labelsKeyFromLabels (labels : List (String × String)) : String :=
  if labels = [] then ""
  else
    let keys := (labels.map Prod.fst).insertionSort (· ≤ ·)
    "\x7b" ++ String.intercalate ","
      (keys.map (fun k => k ++ "=\"" ++ ((labels.lookup k).getD "") ++ "\"")) ++ "\x7d"

/-- Mirrors `labelsToLabelPairs`: label pairs sorted by name. -/
def labelsToLabelPairs (labels : List (String × String)) : List LabelPair :=
  if labels = [] then []
  else
    let keys := (labels.map Prod.fst).insertionSort (· ≤ ·)
    keys.map (fun k => { name := k, value := (labels.lookup k).getD "" })

/-- Mirrors `registry.RegisterLabeledCounter`. -/
def Registry.registerLabeledCounter (r : Registry) (name : String)
    (labels : List (String × String)) (c : MetricCounter) : Registry :=
  let key := labelsKeyFromLabels labels
  let entries := ((r.counters.lookup name).getD [])
  { r with counters :=
      assocSet name (assocSet key { labels := labels, counter := c } entries) r.counters }

/-- Mirrors `registry.RegisterCounter` (nil labels). -/
def Registry.registerCounter (r : Registry) (name : String) (c : MetricCounter) : Registry :=
  r.registerLabeledCounter name [] c

/-- Mirrors `registry.NewCounter`: creates, registers and returns a counter.
The registered entry aliases the returned counter in Go, so later mutations
of the counter are visible to Gather; the model re-registers the mutated
counter to express the same sharing. -/
def Registry.NewCounter (r : Registry) (name help : String) : Registry × MetricCounter :=
  let c := newCounter name help
  (r.registerCounter name c, c)

/-- Mirrors the counters loop of `registry.Gather`: help text is taken from
the first entry, one Metric per labelled entry. -/
def gatherCounterFamily (name : String) (entries : List (String × LabeledCounter)) :
    MetricFamily :=
  { name := name
    help := ((entries.head?.map (fun e => e.2.counter.help)).getD "")
    type := .counter
    metrics := entries.map (fun e =>
      { labels := labelsToLabelPairs e.2.labels
        value := { value := e.2.counter.get } }) }

/-- Mirrors the gauges loop of `registry.Gather`. -/
def gatherGaugeFamily (name : String) (entries : List (String × LabeledGauge)) :
    MetricFamily :=
  { name := name
    help := ((entries.head?.map (fun e => e.2.gauge.help)).getD "")
    type := .gauge
    metrics := entries.map (fun e =>
      { labels := labelsToLabelPairs e.2.labels
        value := { value := e.2.gauge.value } }) }

/-- Cumulative bucket list built at read time, mirroring the loop of
`metricHistogram.ToMetric`: running prefix sums over the raw counts, then a
final `+Inf` bucket adding the last raw count slot. -/
def histCumBuckets (buckets : List ℚ) (bucketCounts : List ℕ) : List Bucket :=
  ((List.range buckets.length).map (fun i =>
    { upperBound := some (buckets.getD i 0)
      cumulativeCount := (bucketCounts.take (i + 1)).sum })) ++
  [{ upperBound := none
     cumulativeCount :=
       (bucketCounts.take buckets.length).sum +
         bucketCounts.getD (bucketCounts.length - 1) 0 }]

/-- Mirrors `metricHistogram.ToMetric`. -/
def MetricHistogram.toMetric (h : MetricHistogram) (labels : List LabelPair) : Metric :=
  { labels := labels
    value := { sampleCount := h.count
               sampleSum := h.sum
               buckets := histCumBuckets h.buckets h.bucketCounts } }

/-- Mirrors `metricHistogram.GetCount`. -/
def MetricHistogram.getCount (h : MetricHistogram) : ℕ :=
  h.count

/-- Mirrors the histograms loop of `registry.Gather`. -/
def gatherHistogramFamily (name : String) (entries : List (String × LabeledHistogram)) :
    MetricFamily :=
  { name := name
    help := ((entries.head?.map (fun e => e.2.histogram.help)).getD "")
    type := .histogram
    metrics := entries.map (fun e =>
      e.2.histogram.toMetric (labelsToLabelPairs e.2.labels)) }

/-- Mirrors `registry.Gather` for the kinds needed by the claims (counters,
gauges, histograms; summaries are gathered analogously and none of the
claims touch a registered summary, so the summaries map is required empty
in the states this file builds). -/
def Registry.gather (r : Registry) : List MetricFamily :=
  (r.counters.map (fun p => gatherCounterFamily p.1 p.2)) ++
  (r.gauges.map (fun p => gatherGaugeFamily p.1 p.2)) ++
  (r.histograms.map (fun p => gatherHistogramFamily p.1 p.2))

/-! ## Histogram construction and observation (part_015) -/

/-- Mirrors `DefBuckets` in optimized.go. -/
def DefBuckets : List ℚ :=
  [1/200, 1/100, 1/40, 1/20, 1/10, 1/4, 1/2, 1, 5/2, 5, 10]

/-- Mirrors `newHistogram`: empty bucket list falls back to `DefBuckets`,
then the boundaries are sorted ascending and one extra raw-count slot is
allocated for the `+Inf` bucket. -/
def newHistogram (name help : String) (buckets : List ℚ) : MetricHistogram :=
  let buckets := if buckets = [] then DefBuckets else buckets
  let sortedBuckets := buckets.insertionSort (· ≤ ·)
  { name := name
    help := help
    buckets := sortedBuckets
    bucketCounts := List.replicate (sortedBuckets.length + 1) 0
    count := 0
    sum := 0 }

/-- Index of the raw bucket incremented for value `val`, mirroring the scan
in `metricHistogram.Observe`: the first boundary with `val ≤ bucket`, or
the trailing `+Inf` slot when no boundary qualifies. -/
def bucketIdxFor (buckets : List ℚ) (val : ℚ) : ℕ :=
  match buckets with
  | [] => 0
  | bucket :: rest => if val ≤ bucket then 0 else bucketIdxFor rest val + 1

/-- Mirrors `metricHistogram.Observe`. -/
def MetricHistogram.observe (h : MetricHistogram) (val : ℚ) : MetricHistogram :=
  let bucketIdx := bucketIdxFor h.buckets val
  { h with
    bucketCounts := h.bucketCounts.set bucketIdx (h.bucketCounts.getD bucketIdx 0 + 1)
    count := h.count + 1
    sum := h.sum + val }

/-- Applies a sequence of observations in order. -/
def MetricHistogram.observeAll (h : MetricHistogram) (vals : List ℚ) : MetricHistogram :=
  vals.foldl MetricHistogram.observe h

/-! ## Summary quantiles (part_015) -/

/-- Mirrors `quantilesFromSamples`: copy and sort the reservoir, then for
each objective pick `data[0]` when `q ≤ 0`, the last element when `q ≥ 1`,
and otherwise the element at index `ceil(q·n) - 1` clamped to `[0, n-1]`. -/
def quantilesFromSamples (samples objectives : List ℚ) : List Quantile :=
  if samples = [] ∨ objectives = [] then []
  else
    let data := samples.insertionSort (· ≤ ·)
    objectives.map (fun q =>
      if q ≤ 0 then { quantile := q, value := data.headD 0 }
      else if 1 ≤ q then { quantile := q, value := data.getD (data.length - 1) 0 }
      else
        let idx : ℤ := ⌈q * data.length⌉ - 1
        let idx : ℤ := if idx < 0 then 0
          else if (data.length : ℤ) ≤ idx then (data.length : ℤ) - 1 else idx
        { quantile := q, value := data.getD idx.toNat 0 })

/-- Modelled from the spec wording of claim C4: pick the element of the
sorted data at index `ceil(q·n) - 1` clamped to `[0, n-1]`, with no special
cases for out-of-range objectives. Used as the comparison point for the
refinement statement. -/
def specQuantileValue (data : List ℚ) (q : ℚ) : ℚ :=
  let idx : ℤ := max 0 (min ((data.length : ℤ) - 1) (⌈q * data.length⌉ - 1))
  data.getD idx.toNat 0

/-- Scenario histogram of claim C2: buckets [1,5], observations 0.5, 1.2, 6.0. -/
def latencyHistC2 : MetricHistogram :=
  (newHistogram "latency_seconds" "Request latency" [1, 5]).observeAll [1/2, 6/5, 6]

/-! ## VictoriaCounter and OptimizedCounter (high_perf_metrics.go, optimized.go)

These counters keep a `uint64` total and convert the float argument of
`Add` with Go conversion `uint64(val)`: truncation toward zero, with
out-of-range (negative) values wrapping modulo 2^64 as on amd64. -/

/-- Truncation of a rational toward zero, the effect of Go float-to-int
conversion on in-range values. -/
def ratTrunc (v : ℚ) : ℤ :=
  v.num.tdiv v.den

/-- Models the Go conversion `uint64(val)` for a float64 argument:
truncation toward zero, reduced modulo 2^64 (twos-complement wrap for
negative arguments, as produced on amd64). -/
def goUint64OfFloat (v : ℚ) : ℕ :=
  ((ratTrunc v).emod (2 ^ 64)).toNat

/-- Mirrors `VictoriaCounter` in high_perf_metrics.go (value is uint64). -/
structure VictoriaCounter where
  value : ℕ
  name : String
  help : String
deriving DecidableEq, Repr

/-- Mirrors `NewVictoriaCounter`. -/
def NewVictoriaCounter (name help : String) : VictoriaCounter :=
  { value := 0, name := name, help := help }

/-- Mirrors `VictoriaCounter.Add`: `atomic.AddUint64(&vc.value, uint64(val))`. -/
def VictoriaCounter.add (c : VictoriaCounter) (val : ℚ) : VictoriaCounter :=
  { c with value := (c.value + goUint64OfFloat val) % 2 ^ 64 }

/-- Mirrors `VictoriaCounter.Inc`: `atomic.AddUint64(&vc.value, 1)`. -/
def VictoriaCounter.inc (c : VictoriaCounter) : VictoriaCounter :=
  { c with value := (c.value + 1) % 2 ^ 64 }

/-- Mirrors `VictoriaCounter.Get` (float64 view of the uint64 total). -/
def VictoriaCounter.get (c : VictoriaCounter) : ℚ :=
  (c.value : ℚ)

/-- Mirrors `OptimizedCounter` in optimized.go. -/
structure OptimizedCounter where
  value : ℕ
  name : String
  help : String
deriving DecidableEq, Repr

/-- Mirrors `NewOptimizedCounter`. -/
def NewOptimizedCounter (name help : String) : OptimizedCounter :=
  { value := 0, name := name, help := help }

/-- Mirrors `OptimizedCounter.Add`: `atomic.AddUint64(&c.value, uint64(val))`. -/
def OptimizedCounter.add (c : OptimizedCounter) (val : ℚ) : OptimizedCounter :=
  { c with value := (c.value + goUint64OfFloat val) % 2 ^ 64 }

/-- Mirrors `OptimizedCounter.Get`. -/
def OptimizedCounter.get (c : OptimizedCounter) : ℚ :=
  (c.value : ℚ)

/-! ## ContextRegistry.GatherWithContext (part_005)

Sequential model of the concurrent aggregate gather. Determinizations,
each matching one admissible schedule of the Go code:
* the forwarded metric stream is the concatenation of the forwarded
  metrics of each collector in registration order;
* the error channel is drained in registration order, so the first
  registered panicking collector supplies the observed error;
* `doneAt = some d` models a context that the merge loop observes as done
  once d metrics have been merged (d = 0: already done on entry);
  `none` models a context that never expires.
A collector that panics mid-collection has already forwarded a prefix of
its metrics; its goroutine recovers the panic and pushes the error. -/

/-- Outcome of one collector during one gather call. -/
inductive CollectOutcome where
  | finished (metrics : List (String × Metric))
  | panicked (forwarded : List (String × Metric)) (msg : String)
deriving DecidableEq, Repr

/-- Metrics a collector managed to forward to the merge point. -/
def CollectOutcome.forwarded : CollectOutcome → List (String × Metric)
  | .finished ms => ms
  | .panicked ms _ => ms

/-- The recovered panic message, when the collector panicked. -/
def CollectOutcome.panicMsg : CollectOutcome → Option String
  | .finished _ => none
  | .panicked _ msg => some msg

/-- Mirrors the metricFamilies map update: get or create the family for
fqName (created with empty help and untyped type) and append the metric. -/
def insertMetricByName (fams : List (String × MetricFamily)) (fqName : String) (m : Metric) :
    List (String × MetricFamily) :=
  if (fams.lookup fqName).isSome then
    fams.map (fun p =>
      if p.1 = fqName then (p.1, { p.2 with metrics := p.2.metrics ++ [m] }) else p)
  else
    fams ++ [(fqName, { name := fqName, help := "", type := .untyped, metrics := [m] })]

/-- Whether the context is observed done at the given poll step. -/
def ctxDoneAt : Option ℕ → ℕ → Bool
  | none, _ => false
  | some d, step => decide (d ≤ step)

/-- Mirrors the merge loop of GatherWithContext: each received metric is
preceded by a poll of the cancellation token, and a done context makes
the whole call return nil families plus the context error (modelled as
`none` here). -/
def mergeLoop (doneAt : Option ℕ) (step : ℕ) (fams : List (String × MetricFamily)) :
    List (String × Metric) → Option (List (String × MetricFamily))
  | [] => some fams
  | p :: rest =>
      if ctxDoneAt doneAt step then none
      else mergeLoop doneAt (step + 1) (insertMetricByName fams p.1 p.2) rest

/-- Sequential model of `ContextRegistry.GatherWithContext`. Returns the
Go pair (families, error): on a pre-expired context or a deadline seen
inside the merge loop the families are nil; after a complete merge, a
queued collector error is returned with nil families; otherwise the
merged families are sorted by name. -/
def gatherWithContext (doneAt : Option ℕ) (collectors : List CollectOutcome) :
    List MetricFamily × Option String :=
  if doneAt = some 0 then ([], some "context canceled")
  else
    match mergeLoop doneAt 0 [] ((collectors.map CollectOutcome.forwarded).flatten) with
    | none => ([], some "context deadline exceeded")
    | some fams =>
        match (collectors.filterMap CollectOutcome.panicMsg).head? with
        | some msg => ([], some ("collector panicked: " ++ msg))
        | none => ((fams.map Prod.snd).insertionSort (fun a b => a.name ≤ b.name), none)

/-- A sample scalar metric used in the gather counterexamples. -/
def sampleMetric : Metric :=
  { labels := [], value := { value := 1 } }

/-- One healthy collector plus one panicking collector. -/
def c6Collectors : List CollectOutcome :=
  [.finished [("good_metric", sampleMetric)], .panicked [] "boom"]

/-- One collector forwarding two metrics; the deadline fires after the
first one has been merged. -/
def c7Collectors : List CollectOutcome :=
  [.finished [("m1", sampleMetric), ("m2", sampleMetric)]]

/-! ## MultiGathererWithContext (part_005) and prefixGatherer (gatherer.go)

The registered map namespace -> gatherer is modelled as an
insertion-ordered association list; a registered gatherer is modelled by
the result its Gather call returns. The `ctxDone` flag models
`ctx.Err() != nil` during the loop. -/

/-- Mirrors `multiGathererWithContext` (and the embedded state of
`prefixGatherer`). -/
structure MultiGathererWC where
  gatherers : List (String × Except String (List MetricFamily))
deriving Repr

/-- Mirrors `NewMultiGathererWithContext`. -/
def NewMultiGathererWithContext : MultiGathererWC :=
  { gatherers := [] }

/-- Mirrors `multiGathererWithContext.Register`: duplicate namespaces are
rejected with an error and, the model being functional, an error means
the registered set is left unchanged. -/
def MultiGathererWC.register (g : MultiGathererWC) (ns : String)
    (gatherer : Except String (List MetricFamily)) : Except String MultiGathererWC :=
  if (g.gatherers.map Prod.fst).contains ns then
    Except.error ("gatherer already registered for namespace: " ++ ns)
  else
    Except.ok { gatherers := g.gatherers ++ [(ns, gatherer)] }

/-- Namespace prefixing applied to gathered families, mirroring the
`prefixedName := namespace + "_" + *mf.Name` loop shared by
`multiGathererWithContext.GatherWithContext` and `prefixGatherer.Gather`. -/
def prefixFamilies (ns : String) (fams : List MetricFamily) : List MetricFamily :=
  fams.map (fun mf => { mf with name := ns ++ "_" ++ mf.name })

/-- The gather loop of `multiGathererWithContext.GatherWithContext`:
polls the context before each gatherer, stops at the first failing
gatherer, prefixes each contributed family, and concatenates in
iteration order. No sorting happens. -/
def multiGatherLoop (ctxDone : Bool) :
    List (String × Except String (List MetricFamily)) →
    Except String (List MetricFamily)
  | [] => Except.ok []
  | p :: rest =>
      if ctxDone then Except.error "context done"
      else
        match p.2 with
        | Except.error e =>
            Except.error ("error gathering from namespace " ++ p.1 ++ ": " ++ e)
        | Except.ok ms =>
            match multiGatherLoop ctxDone rest with
            | Except.error e => Except.error e
            | Except.ok acc => Except.ok (prefixFamilies p.1 ms ++ acc)

/-- Mirrors `multiGathererWithContext.GatherWithContext`. -/
def MultiGathererWC.GatherWithContext (g : MultiGathererWC) (ctxDone : Bool) :
    Except String (List MetricFamily) :=
  multiGatherLoop ctxDone g.gatherers

/-- A gauge family named `up`, as in the multi-namespace scenario. -/
def upFam (nm : String) : MetricFamily :=
  { name := nm, help := "", type := MetricType.gauge, metrics := [sampleMetric] }

/-- Two namespaces registered in the order b, a. -/
def c8G : MultiGathererWC :=
  { gatherers := [("b", Except.ok [upFam "up"]), ("a", Except.ok [upFam "up"])] }

/-! ## Decimal numerals (model of strconv.ParseFloat / FormatFloat)

The float64 text forms are modelled for plain decimal numerals: an
optional sign, an integer part, an optional fraction. Exponent, hex and
inf/nan spellings of strconv.ParseFloat are outside the model; every
numeral the encoder under verification emits is covered. -/

/-- Numeric value of a non-empty all-digit character list. -/
def digitsVal (cs : List Char) : Option ℕ :=
  if cs = [] then none
  else if cs.all Char.isDigit then
    some (cs.foldl (fun acc c => acc * 10 + (c.toNat - ('0').toNat)) 0)
  else none

/-- Parses an unsigned decimal numeral `digits[.digits]`; at least one
digit must be present on one side of the dot. -/
def parseUnsignedDec (cs : List Char) : Option ℚ :=
  let ip := cs.takeWhile (fun c => c ≠ '.')
  let rest := cs.dropWhile (fun c => c ≠ '.')
  match rest with
  | [] => (digitsVal ip).map (fun n => (n : ℚ))
  | _ :: frac =>
      if ip = [] ∧ frac = [] then none
      else
        let ipv : Option ℕ := if ip = [] then some 0 else digitsVal ip
        let frv : Option ℕ := if frac = [] then some 0 else digitsVal frac
        match ipv, frv with
        | some a, some b => some ((a : ℚ) + (b : ℚ) / (10 : ℚ) ^ frac.length)
        | _, _ => none

/-- Models `strconv.ParseFloat` on plain decimal numerals. -/
def parseGoFloat (s : String) : Option ℚ :=
  match s.toList with
  | [] => none
  | '+' :: rest => parseUnsignedDec rest
  | '-' :: rest => (parseUnsignedDec rest).map Neg.neg
  | cs => parseUnsignedDec cs

/-! ## HTTP handler scrape timeout (handler.go) -/

/-- Models `http.Header.Get` for canonical header keys. -/
def headerGet (headers : List (String × String)) (k : String) : String :=
  (headers.lookup k).getD ""

/-- Mirrors `parseScrapeTimeout`: first X-Scrape-Timeout-Seconds, then
X-Prometheus-Scrape-Timeout-Seconds; empty, unparsable or non-positive
values contribute 0 (no deadline). The result is in seconds. -/
def parseScrapeTimeout (headers : List (String × String)) : ℚ :=
  let headerVal := headerGet headers "X-Scrape-Timeout-Seconds"
  let headerVal :=
    if headerVal = "" then headerGet headers "X-Prometheus-Scrape-Timeout-Seconds"
    else headerVal
  if headerVal = "" then 0
  else
    match parseGoFloat headerVal with
    | none => 0
    | some seconds => if seconds ≤ 0 then 0 else seconds

/-- Mirrors the timeout selection in `HandlerForWithOpts`: the configured
option wins whenever it is non-zero; only a zero option falls back to
the scrape-timeout header. -/
def effectiveTimeout (optsTimeout : ℚ) (headers : List (String × String)) : ℚ :=
  if optsTimeout = 0 then parseScrapeTimeout headers else optsTimeout

/-- Mirrors `if timeout > 0` in `HandlerForWithOpts`: a context deadline
is installed only for a positive timeout. -/
def deadlineApplied (t : ℚ) : Bool :=
  decide (0 < t)

/-- Headers carrying a one-second scrape timeout. -/
def c9Headers : List (String × String) :=
  [("X-Scrape-Timeout-Seconds", "1")]

/-! ## Character-level string helpers

Kernel-computable models of the Go string functions used by the codec
(strings.TrimSpace, HasPrefix/HasSuffix, Replace, ToLower restricted to
the ASCII range the text format uses). -/

/-- ASCII whitespace, the subset of unicode.IsSpace relevant here. -/
def isSpaceChar (c : Char) : Bool :=
  c == ' ' || c == '\t' || c == '\n' || c == '\r'

/-- Models strings.TrimSpace. -/
def trimChars (cs : List Char) : List Char :=
  ((cs.dropWhile isSpaceChar).reverse.dropWhile isSpaceChar).reverse

/-- Models strings.TrimSpace on String. -/
def strTrim (s : String) : String :=
  (trimChars s.toList).asString

/-- Models strings.HasPrefix (pattern first). -/
def listStartsWith : List Char → List Char → Bool
  | [], _ => true
  | _ :: _, [] => false
  | p :: ps, c :: cs => p == c && listStartsWith ps cs

/-- Models strings.HasPrefix on String. -/
def strStartsWith (s pre : String) : Bool :=
  listStartsWith pre.toList s.toList

/-- Models strings.HasSuffix on String. -/
def strEndsWith (s suffixStr : String) : Bool :=
  listStartsWith suffixStr.toList.reverse s.toList.reverse

/-- Fuel-bounded non-overlapping left-to-right replacement; with fuel at
least the input length it models strings.ReplaceAll. -/
def replaceFuel (pat repl : List Char) : ℕ → List Char → List Char
  | 0, cs => cs
  | _ + 1, [] => []
  | fuel + 1, c :: rest =>
      if pat ≠ [] ∧ listStartsWith pat (c :: rest) then
        repl ++ replaceFuel pat repl fuel ((c :: rest).drop pat.length)
      else c :: replaceFuel pat repl fuel rest

/-- Models strings.ReplaceAll on String. -/
def strReplace (s pat repl : String) : String :=
  (replaceFuel pat.toList repl.toList s.toList.length s.toList).asString

/-- Models strings.ToLower on the ASCII range. -/
def charToLower (c : Char) : Char :=
  if ('A' ≤ c ∧ c ≤ 'Z') then Char.ofNat (c.toNat + 32) else c

/-- Models strings.ToLower on String (ASCII). -/
def strToLower (s : String) : String :=
  (s.toList.map charToLower).asString

/-! ## Text exposition encoder (handler.go)

The encoder is modelled at line granularity: `EncodeText` produces the
list of lines it writes, in order; the Go writer emits exactly these
lines separated by newlines, which is how bufio.Scanner splits them back
on the decoding side. -/

/-- Fractional decimal digits of `r / den` by long division, fuel
bounded; every float64 has a terminating decimal expansion, so with
enough fuel the remainder reaches zero. -/
def fracDigits : ℕ → ℕ → ℕ → List Char
  | 0, _, _ => []
  | _ + 1, 0, _ => []
  | fuel + 1, r, den =>
      Nat.digitChar (r * 10 / den) :: fracDigits fuel (r * 10 % den) den

/-- Models `formatFloat` in handler.go and the `%v` float64 formatting it
relies on: integral values print without a decimal point, others print
their (terminating) decimal expansion. Exponent forms of 'g' for very
large or very small magnitudes are outside the model. -/
def formatQ (v : ℚ) : String :=
  if v.den = 1 then toString v.num
  else
    (if v < 0 then "-" else "") ++ toString (v.num.natAbs / v.den) ++ "." ++
      (fracDigits 64 (v.num.natAbs % v.den) v.den).asString

/-- Models the `%q` label-value quoting for printable ASCII content. -/
def quoteGo (s : String) : String :=
  "\"" ++ strReplace (strReplace s "\\" "\\\\") "\"" "\\\"" ++ "\""

/-- Mirrors `escapeHelp`. -/
def escapeHelp (s : String) : String :=
  strReplace (strReplace s "\\" "\\\\") "\n" "\\n"

/-- Mirrors `formatLabels`. -/
def formatLabels (labels : List LabelPair) : String :=
  String.intercalate "," (labels.map (fun l => l.name ++ "=" ++ quoteGo l.value))

/-- Mirrors `formatLabelsWithBraces`. -/
def formatLabelsWithBraces (labels : List LabelPair) : String :=
  if labels = [] then "" else "\x7b" ++ formatLabels labels ++ "\x7d"

/-- Mirrors `writeMetricLine`. -/
def writeMetricLine (name : String) (labels : List LabelPair) (value : ℚ) : String :=
  if labels = [] then name ++ " " ++ formatQ value
  else name ++ "\x7b" ++ formatLabels labels ++ "\x7d " ++ formatQ value

/-- The le label text of a bucket bound: `formatFloat` on the bound, with
`+Inf` for the infinite bound. -/
def formatUpperBound : Option ℚ → String
  | none => "+Inf"
  | some q => formatQ q

/-- Bucket ordering used by the `sort.Slice` call in `writeHistogram`:
ascending upper bound, `+Inf` last. -/
def bucketUBLe (a b : Bucket) : Bool :=
  match a.upperBound, b.upperBound with
  | none, none => true
  | none, some _ => false
  | some _, none => true
  | some x, some y => decide (x ≤ y)

/-- Mirrors `writeHistogram`: sorted `_bucket` lines, then `_sum` and
`_count`. -/
def writeHistogramLines (name : String) (m : Metric) : List String :=
  let buckets := m.value.buckets.insertionSort (fun a b => bucketUBLe a b = true)
  (buckets.map (fun b =>
    name ++ "_bucket" ++ "\x7b" ++
      formatLabels (m.labels ++ [{ name := "le", value := formatUpperBound b.upperBound }]) ++
      "\x7d " ++ toString b.cumulativeCount)) ++
  [writeMetricLine (name ++ "_sum") m.labels m.value.sampleSum,
   name ++ "_count" ++ formatLabelsWithBraces m.labels ++ " " ++ toString m.value.sampleCount]

/-- Mirrors `writeSummary`: quantile lines, then `_sum` and `_count`. -/
def writeSummaryLines (name : String) (m : Metric) : List String :=
  (m.value.quantiles.map (fun q =>
    name ++ "\x7b" ++
      formatLabels (m.labels ++ [{ name := "quantile", value := formatQ q.quantile }]) ++
      "\x7d " ++ formatQ q.value)) ++
  [writeMetricLine (name ++ "_sum") m.labels m.value.sampleSum,
   name ++ "_count" ++ formatLabelsWithBraces m.labels ++ " " ++ toString m.value.sampleCount]

/-- Mirrors the per-family body of `EncodeText`: optional HELP line, TYPE
line, then the per-metric lines by family type. -/
def encodeFamilyLines (mf : MetricFamily) : List String :=
  (if mf.help ≠ "" then ["# HELP " ++ mf.name ++ " " ++ escapeHelp mf.help] else []) ++
  ["# TYPE " ++ mf.name ++ " " ++ mf.type.text] ++
  (mf.metrics.map (fun m =>
    match mf.type with
    | MetricType.counter => [writeMetricLine mf.name m.labels m.value.value]
    | MetricType.gauge => [writeMetricLine mf.name m.labels m.value.value]
    | MetricType.untyped => [writeMetricLine mf.name m.labels m.value.value]
    | MetricType.histogram => writeHistogramLines mf.name m
    | MetricType.summary => writeSummaryLines mf.name m)).flatten

/-- Mirrors `EncodeText` (nil families cannot occur in the model). -/
def EncodeText (fams : List MetricFamily) : List String :=
  (fams.map encodeFamilyLines).flatten

/-! ## Text exposition decoder (part_008) -/

/-- Models `strings.SplitN(s, " ", 2)`: the part before the first space
and, when a space exists, the remainder after it. -/
def splitFirstSpace (cs : List Char) : List Char × Option (List Char) :=
  match cs.dropWhile (fun c => c ≠ ' ') with
  | [] => (cs.takeWhile (fun c => c ≠ ' '), none)
  | _ :: rest => (cs.takeWhile (fun c => c ≠ ' '), some rest)

/-- Models `strings.LastIndex(line, " ")`. -/
def lastSpaceIdx (cs : List Char) : Option ℕ :=
  match cs.reverse.findIdx? (fun c => decide (c = ' ')) with
  | none => none
  | some j => some (cs.length - 1 - j)

/-- Mirrors `unescapeHelp`. -/
def unescapeHelp (s : String) : String :=
  strReplace (strReplace s "\\n" "\n") "\\\\" "\\"

/-- Mirrors `parseMetricType`. -/
def parseMetricType (s : String) : MetricType :=
  if strToLower s = "counter" then MetricType.counter
  else if strToLower s = "gauge" then MetricType.gauge
  else if strToLower s = "histogram" then MetricType.histogram
  else if strToLower s = "summary" then MetricType.summary
  else MetricType.untyped

/-- Mirrors `parseValue`. The Go function maps `+Inf`, `-Inf` and `NaN`
to the corresponding IEEE values; those lie outside the rational carrier
of this model, so such value tokens are treated as unparsable here. The
encoder under verification never emits them as value tokens. -/
def parseValue (s : String) : Option ℚ :=
  if s = "+Inf" ∨ s = "-Inf" ∨ s = "NaN" then none
  else parseGoFloat s

/-- The scan of `splitLabels`: `prev` is the previous character,
`inQuote` the quote state, `current` the accumulator of the part being
built (reversed), `acc` the finished parts (reversed). A comma outside
quotes always pushes the current part; the final part is pushed only
when non-empty, as in the Go code. -/
def splitLabelsAux : List Char → Option Char → Bool → List Char → List (List Char) →
    List (List Char)
  | [], _, _, current, acc =>
      if current = [] then acc.reverse else (current.reverse :: acc).reverse
  | c :: rest, prev, inQuote, current, acc =>
      let inQuote2 :=
        if c = '"' ∧ (prev = none ∨ prev ≠ some '\\') then !inQuote else inQuote
      if c = ',' ∧ inQuote2 = false then
        splitLabelsAux rest (some c) inQuote2 [] (current.reverse :: acc)
      else
        splitLabelsAux rest (some c) inQuote2 (c :: current) acc

/-- Mirrors `splitLabels`. -/
def splitLabelsGo (cs : List Char) : List (List Char) :=
  splitLabelsAux cs none false [] []

/-- Mirrors `parseNameAndLabels`: the name before `{`, then the label
block with its final character dropped, comma-split respecting quotes,
each part split at the first `=`, surrounding quotes stripped. -/
def parseNameAndLabels (s : String) : String × List LabelPair :=
  let cs := s.toList
  match cs.findIdx? (fun c => decide (c = '\x7b')) with
  | none => (s, [])
  | some i =>
      let name := (cs.take i).asString
      let labelsStr := (cs.drop (i + 1)).dropLast
      if labelsStr = [] then (name, [])
      else
        (name, (splitLabelsGo labelsStr).filterMap (fun part =>
          match part.findIdx? (fun c => decide (c = '=')) with
          | none => none
          | some eqIdx =>
              let labelName := (part.take eqIdx).asString
              let lv := part.drop (eqIdx + 1)
              let lv :=
                if 2 ≤ lv.length ∧ lv.head? = some '"' ∧ lv.getLast? = some '"' then
                  (lv.drop 1).dropLast
                else lv
              some { name := labelName, value := lv.asString }))

/-- Mirrors `parseMetricLine`. -/
def parseMetricLine (line : String) : Option (String × List LabelPair × ℚ) :=
  let cs := line.toList
  match lastSpaceIdx cs with
  | none => none
  | some idx =>
      let valueStr := strTrim (cs.drop (idx + 1)).asString
      let metricPart := strTrim (cs.take idx).asString
      match parseValue valueStr with
      | none => none
      | some value =>
          let nl := parseNameAndLabels metricPart
          some (nl.1, nl.2, value)

/-- Mirrors the `X_bucket`/`X_sum`/`X_count`/`X_total` suffix folding. -/
def stripNameSuffix (name : String) : String :=
  if strEndsWith name "_bucket" = true then name.dropRight 7
  else if strEndsWith name "_sum" = true then name.dropRight 4
  else if strEndsWith name "_count" = true then name.dropRight 6
  else if strEndsWith name "_total" = true then name.dropRight 6
  else name

/-- Creates the binding for `name` when absent, modelling
`families[name]` map initialisation. -/
def famsEnsure (fams : List (String × MetricFamily)) (name : String) (init : MetricFamily) :
    List (String × MetricFamily) :=
  if (fams.lookup name).isSome then fams else fams ++ [(name, init)]

/-- In-place update of the binding for `name`. -/
def famsUpdate (fams : List (String × MetricFamily)) (name : String)
    (f : MetricFamily → MetricFamily) : List (String × MetricFamily) :=
  fams.map (fun p => if p.1 = name then (p.1, f p.2) else p)

/-- The Go zero-valued `&MetricFamily{Name: name}` has type tag 0, which
is MetricTypeCounter. -/
def zeroFamily (name : String) : MetricFamily :=
  { name := name, help := "", type := MetricType.counter, metrics := [] }

/-- One line of the `ParseText` scanner loop. -/
def parseLine (fams : List (String × MetricFamily)) (rawLine : String) :
    List (String × MetricFamily) :=
  let line := strTrim rawLine
  if line = "" then fams
  else if strStartsWith line "# HELP " = true then
    let parts := splitFirstSpace (line.drop 7).toList
    let nameS := parts.1.asString
    let help := match parts.2 with
      | none => ""
      | some h => unescapeHelp h.asString
    famsUpdate (famsEnsure fams nameS (zeroFamily nameS)) nameS
      (fun mf => { mf with help := help })
  else if strStartsWith line "# TYPE " = true then
    let parts := splitFirstSpace (line.drop 7).toList
    let nameS := parts.1.asString
    let typeStr := match parts.2 with
      | none => ""
      | some t => t.asString
    famsUpdate (famsEnsure fams nameS (zeroFamily nameS)) nameS
      (fun mf => { mf with type := parseMetricType typeStr })
  else if strStartsWith line "#" = true then fams
  else
    match parseMetricLine line with
    | none => fams
    | some nlv =>
        let baseName := stripNameSuffix nlv.1
        famsUpdate (famsEnsure fams baseName
            { name := baseName, help := "", type := MetricType.untyped, metrics := [] })
          baseName
          (fun mf => { mf with metrics :=
            mf.metrics ++ [{ labels := nlv.2.1, value := { value := nlv.2.2 } }] })

/-- Mirrors `ParseText` over the scanner lines; the Go map of families
is the insertion-ordered association list. -/
def ParseText (lines : List String) : List (String × MetricFamily) :=
  lines.foldl parseLine []

/-! ## Concrete family sets for the round-trip claim -/

/-- Counter family whose name carries the conventional `_total` suffix. -/
def c5CounterFam : MetricFamily :=
  { name := "requests_total", help := "Total requests", type := MetricType.counter,
    metrics := [{ labels := [], value := { value := 5 } }] }

/-- Gauge family. -/
def c5GaugeFam : MetricFamily :=
  { name := "temperature", help := "Current temperature", type := MetricType.gauge,
    metrics := [{ labels := [], value := { value := -2 } }] }

/-- Histogram family with custom buckets [1, 5]. -/
def c5HistFam : MetricFamily :=
  { name := "latency_seconds", help := "Request latency", type := MetricType.histogram,
    metrics := [{ labels := [], value :=
      { value := 0, sampleCount := 3, sampleSum := 8,
        buckets := [{ upperBound := some 1, cumulativeCount := 1 },
                    { upperBound := some 5, cumulativeCount := 2 },
                    { upperBound := none, cumulativeCount := 3 }],
        quantiles := [] } }] }

/-- The family set of claim C5: counter, gauge, histogram. -/
def famsC5 : List MetricFamily := [c5CounterFam, c5GaugeFam, c5HistFam]

/-- The same set with the counter renamed so that no reserved suffix is
involved. -/
def c5ACounterFam : MetricFamily :=
  { name := "http_requests", help := "Total requests", type := MetricType.counter,
    metrics := [{ labels := [], value := { value := 5 } }] }

/-- Amended-claim family set: counter without reserved suffix, gauge,
histogram. -/
def famsC5A : List MetricFamily := [c5ACounterFam, c5GaugeFam, c5HistFam]

/-! ## Supporting lemmas for the counter claims -/

theorem MetricCounter.applyOps_value (c : MetricCounter) (ops : List CtrOp) :
    (c.applyOps ops).value = c.value + (ops.map CtrOp.delta).sum := by
  induction ops generalizing c with
  | nil => simp [MetricCounter.applyOps]
  | cons op rest ih =>
      cases op with
      | inc =>
          show ((c.inc).applyOps rest).value = c.value + ((CtrOp.inc :: rest).map CtrOp.delta).sum
          rw [ih, List.map_cons, List.sum_cons]
          simp only [MetricCounter.inc, MetricCounter.add, CtrOp.delta]
          ring
      | add v =>
          show ((c.add v).applyOps rest).value =
            c.value + ((CtrOp.add v :: rest).map CtrOp.delta).sum
          rw [ih, List.map_cons, List.sum_cons]
          simp only [MetricCounter.add, CtrOp.delta]
          ring

theorem MetricCounter.applyOps_name (c : MetricCounter) (ops : List CtrOp) :
    (c.applyOps ops).name = c.name := by
  induction ops generalizing c with
  | nil => rfl
  | cons op rest ih => cases op <;> exact ih _

theorem MetricCounter.applyOps_help (c : MetricCounter) (ops : List CtrOp) :
    (c.applyOps ops).help = c.help := by
  induction ops generalizing c with
  | nil => rfl
  | cons op rest ih => cases op <;> exact ih _

/-- C1: for a counter created through the native registry, three `Inc()`
calls and one `Add(2.5)` in any order and with no other mutation make
`Get()` return 5.5, and a subsequent `Gather()` exposes one counter family
whose single metric has value 5.5. -/
theorem C1_counter_inc_add_gather (ops : List CtrOp)
    (hperm : ops.Perm [CtrOp.inc, CtrOp.inc, CtrOp.inc, CtrOp.add (5/2)]) :
    ((newRegistry.NewCounter "requests_total" "Total requests").2.applyOps ops).get = 11/2 ∧
    ((newRegistry.NewCounter "requests_total" "Total requests").1.registerCounter
        "requests_total"
        ((newRegistry.NewCounter "requests_total" "Total requests").2.applyOps ops)).gather =
      [{ name := "requests_total", help := "Total requests", type := MetricType.counter,
         metrics := [{ labels := [], value := { value := 11/2 } }] }] := by
  have hsum : (ops.map CtrOp.delta).sum = 11/2 := by
    rw [(hperm.map CtrOp.delta).sum_eq]
    norm_num [CtrOp.delta]
  have hc : ((newRegistry.NewCounter "requests_total" "Total requests").2.applyOps ops).get
      = 11/2 := by
    rw [MetricCounter.get, MetricCounter.applyOps_value, hsum]
    norm_num [Registry.NewCounter, newCounter]
  refine ⟨hc, ?_⟩
  have hc2 : (({ value := 0, name := "requests_total", help := "Total requests" } :
      MetricCounter).applyOps ops).get = 11/2 := hc
  simp [Registry.gather, Registry.NewCounter, Registry.registerCounter,
    Registry.registerLabeledCounter, newRegistry, newCounter, assocSet,
    labelsKeyFromLabels, gatherCounterFamily, labelsToLabelPairs,
    MetricCounter.applyOps_help, hc2]

/-- Witness for C1 at the literal operation order Inc, Inc, Inc, Add(2.5). -/
theorem C1_witness :
    ((newRegistry.NewCounter "requests_total" "Total requests").2.applyOps
        [CtrOp.inc, CtrOp.inc, CtrOp.inc, CtrOp.add (5/2)]).get = 11/2 ∧
    ((newRegistry.NewCounter "requests_total" "Total requests").1.registerCounter
        "requests_total"
        ((newRegistry.NewCounter "requests_total" "Total requests").2.applyOps
          [CtrOp.inc, CtrOp.inc, CtrOp.inc, CtrOp.add (5/2)])).gather =
      [{ name := "requests_total", help := "Total requests", type := MetricType.counter,
         metrics := [{ labels := [], value := { value := 11/2 } }] }] :=
  C1_counter_inc_add_gather _ (List.Perm.refl _)

/-! ## Supporting lemmas for the histogram claims -/

theorem bucketIdxFor_le (buckets : List ℚ) (v : ℚ) :
    bucketIdxFor buckets v ≤ buckets.length := by
  induction buckets with
  | nil => simp [bucketIdxFor]
  | cons b rest ih =>
      by_cases h : v ≤ b
      · simp [bucketIdxFor, h]
      · simp only [bucketIdxFor, h, if_false, List.length_cons]
        omega

theorem bucketIdxFor_skipped (buckets : List ℚ) (v : ℚ) (j : ℕ)
    (hj : j < bucketIdxFor buckets v) : buckets.getD j 0 < v := by
  induction buckets generalizing j with
  | nil => simp [bucketIdxFor] at hj
  | cons b rest ih =>
      by_cases h : v ≤ b
      · simp [bucketIdxFor, h] at hj
      · cases j with
        | zero => simpa using not_le.mp h
        | succ j =>
            simp only [bucketIdxFor, h, if_false] at hj
            simpa using ih j (by omega)

theorem bucketIdxFor_hit (buckets : List ℚ) (v : ℚ)
    (hlt : bucketIdxFor buckets v < buckets.length) :
    v ≤ buckets.getD (bucketIdxFor buckets v) 0 := by
  induction buckets with
  | nil => simp [bucketIdxFor] at hlt
  | cons b rest ih =>
      by_cases h : v ≤ b
      · simp [bucketIdxFor, h]
      · simp only [bucketIdxFor, h, if_false, List.length_cons] at hlt ⊢
        simpa using ih (by omega)

theorem getD_set_self (l : List ℕ) (i : ℕ) (x : ℕ) (hi : i < l.length) :
    (l.set i x).getD i 0 = x := by
  induction l generalizing i with
  | nil => simp at hi
  | cons a rest ih =>
      cases i with
      | zero => simp
      | succ i => simpa using ih i (by simpa using hi)

theorem getD_set_ne (l : List ℕ) (i j : ℕ) (x : ℕ) (hne : j ≠ i) :
    (l.set i x).getD j 0 = l.getD j 0 := by
  induction l generalizing i j with
  | nil => simp
  | cons a rest ih =>
      cases i with
      | zero => cases j with
        | zero => exact absurd rfl hne
        | succ j => simp
      | succ i => cases j with
        | zero => simp
        | succ j => simpa using ih i j (by omega)

theorem sum_set_getD_succ (l : List ℕ) (i : ℕ) (hi : i < l.length) :
    (l.set i (l.getD i 0 + 1)).sum = l.sum + 1 := by
  induction l generalizing i with
  | nil => simp at hi
  | cons a rest ih =>
      cases i with
      | zero => simp; omega
      | succ i =>
          have := ih i (by simpa using hi)
          simp only [List.set, List.getD_cons_succ, List.sum_cons]
          omega

theorem observe_buckets (h : MetricHistogram) (v : ℚ) :
    (h.observe v).buckets = h.buckets := rfl

theorem observe_count (h : MetricHistogram) (v : ℚ) :
    (h.observe v).count = h.count + 1 := rfl

theorem observe_bucketCounts_length (h : MetricHistogram) (v : ℚ) :
    (h.observe v).bucketCounts.length = h.bucketCounts.length := by
  simp [MetricHistogram.observe]

theorem observe_bucketCounts_sum (h : MetricHistogram) (v : ℚ)
    (hlen : h.bucketCounts.length = h.buckets.length + 1) :
    (h.observe v).bucketCounts.sum = h.bucketCounts.sum + 1 := by
  have hidx : bucketIdxFor h.buckets v < h.bucketCounts.length := by
    have := bucketIdxFor_le h.buckets v
    omega
  simpa [MetricHistogram.observe] using sum_set_getD_succ _ _ hidx

theorem observeAll_invariant (h : MetricHistogram) (vals : List ℚ)
    (hlen : h.bucketCounts.length = h.buckets.length + 1)
    (hsum : h.bucketCounts.sum = h.count) :
    (h.observeAll vals).buckets = h.buckets ∧
    (h.observeAll vals).bucketCounts.length = h.bucketCounts.length ∧
    (h.observeAll vals).bucketCounts.sum = (h.observeAll vals).count := by
  induction vals generalizing h with
  | nil => exact ⟨rfl, rfl, hsum⟩
  | cons v rest ih =>
      have step := ih (h.observe v)
        (by rw [observe_bucketCounts_length, observe_buckets]; exact hlen)
        (by rw [observe_bucketCounts_sum h v hlen, observe_count, hsum])
      refine ⟨?_, ?_, step.2.2⟩
      · show ((h.observe v).observeAll rest).buckets = h.buckets
        rw [step.1, observe_buckets]
      · show ((h.observe v).observeAll rest).bucketCounts.length = h.bucketCounts.length
        rw [step.2.1, observe_bucketCounts_length]

theorem sum_take_mono_succ (l : List ℕ) (i : ℕ) :
    (l.take i).sum ≤ (l.take (i + 1)).sum := by
  induction l generalizing i with
  | nil => simp
  | cons a rest ih =>
      cases i with
      | zero => simp
      | succ i =>
          have := ih i
          simp only [List.take, List.sum_cons]
          omega

theorem take_sum_getD_last (l : List ℕ) (n : ℕ) (hl : l.length = n + 1) :
    (l.take n).sum + l.getD n 0 = l.sum := by
  induction l generalizing n with
  | nil => simp at hl
  | cons a rest ih =>
      cases n with
      | zero =>
          have : rest = [] := List.length_eq_zero.mp (by simpa using hl)
          subst this
          simp
      | succ n =>
          have := ih n (by simpa using hl)
          simp only [List.take, List.sum_cons, List.getD_cons_succ]
          omega

theorem getD_map_range (f : ℕ → Bucket) (n i : ℕ) (d : Bucket) (hi : i < n) :
    (((List.range n).map f).getD i d) = f i := by
  simp [List.getD_eq_getElem?_getD, List.getElem?_map, List.getElem?_range, hi]

/-- C2: for the scenario histogram with buckets [1,5] and observations
0.5, 1.2, 6.0 the exposed cumulative buckets are 1, 2, 3 with sample sum
7.7 and sample count 3; and in general each Observe(v) increments exactly
the raw count of the first bucket whose boundary is at least v, or the
+Inf slot when no boundary qualifies. -/
theorem C2_histogram_observe (h : MetricHistogram) (v : ℚ)
    (hlen : h.bucketCounts.length = h.buckets.length + 1) :
    (latencyHistC2.toMetric []).value =
      { value := 0, sampleCount := 3, sampleSum := 77/10,
        buckets := [{ upperBound := some 1, cumulativeCount := 1 },
                    { upperBound := some 5, cumulativeCount := 2 },
                    { upperBound := none, cumulativeCount := 3 }],
        quantiles := [] } ∧
    bucketIdxFor h.buckets v ≤ h.buckets.length ∧
    (∀ j, j < bucketIdxFor h.buckets v → h.buckets.getD j 0 < v) ∧
    (bucketIdxFor h.buckets v < h.buckets.length →
      v ≤ h.buckets.getD (bucketIdxFor h.buckets v) 0) ∧
    (∀ j, j < h.bucketCounts.length →
      (h.observe v).bucketCounts.getD j 0 =
        h.bucketCounts.getD j 0 + (if j = bucketIdxFor h.buckets v then 1 else 0)) := by
  refine ⟨by
    norm_num [latencyHistC2, newHistogram, MetricHistogram.observeAll, MetricHistogram.observe,
      MetricHistogram.toMetric, histCumBuckets, bucketIdxFor, DefBuckets,
      List.insertionSort, List.orderedInsert, List.replicate_succ, List.set,
      List.range_succ], bucketIdxFor_le h.buckets v,
    fun j hj => bucketIdxFor_skipped h.buckets v j hj,
    fun hlt => bucketIdxFor_hit h.buckets v hlt, fun j hj => ?_⟩
  have hidx : bucketIdxFor h.buckets v < h.bucketCounts.length := by
    have := bucketIdxFor_le h.buckets v
    omega
  by_cases hje : j = bucketIdxFor h.buckets v
  · rw [hje, if_pos rfl]
    exact getD_set_self _ _ _ hidx
  · rw [if_neg hje]
    simpa using getD_set_ne h.bucketCounts (bucketIdxFor h.buckets v) j _ hje

/-- Witness for C2 at the scenario histogram and the observation 1.2. -/
theorem C2_witness :
    latencyHistC2.bucketCounts.length = latencyHistC2.buckets.length + 1 ∧
    ((latencyHistC2.toMetric []).value =
      { value := 0, sampleCount := 3, sampleSum := 77/10,
        buckets := [{ upperBound := some 1, cumulativeCount := 1 },
                    { upperBound := some 5, cumulativeCount := 2 },
                    { upperBound := none, cumulativeCount := 3 }],
        quantiles := [] } ∧
    bucketIdxFor latencyHistC2.buckets (6/5) ≤ latencyHistC2.buckets.length ∧
    (∀ j, j < bucketIdxFor latencyHistC2.buckets (6/5) →
      latencyHistC2.buckets.getD j 0 < 6/5) ∧
    (bucketIdxFor latencyHistC2.buckets (6/5) < latencyHistC2.buckets.length →
      6/5 ≤ latencyHistC2.buckets.getD (bucketIdxFor latencyHistC2.buckets (6/5)) 0) ∧
    (∀ j, j < latencyHistC2.bucketCounts.length →
      (latencyHistC2.observe (6/5)).bucketCounts.getD j 0 =
        latencyHistC2.bucketCounts.getD j 0 +
          (if j = bucketIdxFor latencyHistC2.buckets (6/5) then 1 else 0))) := by
  have hlen : latencyHistC2.bucketCounts.length = latencyHistC2.buckets.length + 1 := by
    norm_num [latencyHistC2, newHistogram, MetricHistogram.observeAll, MetricHistogram.observe,
      bucketIdxFor, DefBuckets, List.insertionSort, List.orderedInsert,
      List.replicate_succ, List.set]
  exact ⟨hlen, C2_histogram_observe latencyHistC2 (6/5) hlen⟩

/-- C3: for every observation sequence on a histogram built by
newHistogram, the exposed cumulative bucket list ends in a +Inf bucket
whose cumulative count equals GetCount(), and every cumulative count is at
most the next one. -/
theorem C3_histogram_cumulative (bs : List ℚ) (nm hp : String) (vals : List ℚ) :
    ((((newHistogram nm hp bs).observeAll vals).toMetric []).value.buckets.getLast?.map
       Bucket.cumulativeCount) = some ((newHistogram nm hp bs).observeAll vals).getCount ∧
    ∀ i, i + 1 < (((newHistogram nm hp bs).observeAll vals).toMetric []).value.buckets.length →
      ((((newHistogram nm hp bs).observeAll vals).toMetric []).value.buckets.getD i
         { upperBound := none, cumulativeCount := 0 }).cumulativeCount ≤
      ((((newHistogram nm hp bs).observeAll vals).toMetric []).value.buckets.getD (i + 1)
         { upperBound := none, cumulativeCount := 0 }).cumulativeCount := by
  have hlen0 : (newHistogram nm hp bs).bucketCounts.length =
      (newHistogram nm hp bs).buckets.length + 1 := by
    simp [newHistogram]
  have hsum0 : (newHistogram nm hp bs).bucketCounts.sum = (newHistogram nm hp bs).count := by
    simp [newHistogram]
  obtain ⟨hbk, hbl, hbs⟩ := observeAll_invariant (newHistogram nm hp bs) vals hlen0 hsum0
  set h := (newHistogram nm hp bs).observeAll vals with hdef
  have hlen : h.bucketCounts.length = h.buckets.length + 1 := by
    rw [hbl, hbk, hlen0]
  set n := h.buckets.length with hn
  have hB : ((h.toMetric []).value.buckets) =
      ((List.range n).map (fun i =>
        ({ upperBound := some (h.buckets.getD i 0)
           cumulativeCount := (h.bucketCounts.take (i + 1)).sum } : Bucket))) ++
      [{ upperBound := none
         cumulativeCount := (h.bucketCounts.take n).sum +
           h.bucketCounts.getD (h.bucketCounts.length - 1) 0 }] := rfl
  have hfinlen : ((List.range n).map (fun i =>
      ({ upperBound := some (h.buckets.getD i 0)
         cumulativeCount := (h.bucketCounts.take (i + 1)).sum } : Bucket))).length = n := by
    simp
  constructor
  · rw [hB, List.getLast?_concat]
    have : h.bucketCounts.length - 1 = n := by omega
    rw [this]
    simp only [Option.map_some']
    rw [take_sum_getD_last h.bucketCounts n hlen, hbs, MetricHistogram.getCount]
  · intro i hi
    have hBlen : ((h.toMetric []).value.buckets).length = n + 1 := by
      rw [hB]
      simp
    have hi' : i + 1 ≤ n := by omega
    rw [hB]
    by_cases hcase : i + 1 < n
    · rw [List.getD_append _ _ _ _ (by rw [hfinlen]; omega),
        List.getD_append _ _ _ _ (by rw [hfinlen]; omega)]
      rw [getD_map_range _ _ _ _ (by omega), getD_map_range _ _ _ _ (by omega)]
      exact sum_take_mono_succ h.bucketCounts (i + 1)
    · have hieq : i + 1 = n := by omega
      rw [List.getD_append _ _ _ _ (by rw [hfinlen]; omega)]
      rw [getD_map_range _ _ _ _ (by omega)]
      rw [List.getD_append_right _ _ _ _ (by rw [hfinlen]; omega)]
      simp only [List.length_map, List.length_range]
      have hzero : i + 1 - n = 0 := by omega
      rw [hzero]
      simp only [List.getD_cons_zero]
      rw [hieq]
      exact Nat.le_add_right _ _

/-! ## Supporting lemmas for the summary quantile claim -/

theorem headD_mem (l : List ℚ) (hne : l ≠ []) : l.headD 0 ∈ l := by
  cases l with
  | nil => exact absurd rfl hne
  | cons a rest => simp

theorem sorted_headD_le (l : List ℚ) (hs : l.Sorted (· ≤ ·)) (x : ℚ) (hx : x ∈ l) :
    l.headD 0 ≤ x := by
  cases l with
  | nil => cases hx
  | cons a rest =>
      rcases List.mem_cons.mp hx with rfl | hx
      · simp
      · simpa using (List.sorted_cons.mp hs).1 x hx

theorem getD_last_mem (l : List ℚ) (hne : l ≠ []) : l.getD (l.length - 1) 0 ∈ l := by
  induction l with
  | nil => exact absurd rfl hne
  | cons a rest ih =>
      cases rest with
      | nil => simp
      | cons b rest2 =>
          have := ih (by simp)
          simp only [List.length_cons, Nat.add_sub_cancel] at this ⊢
          exact List.mem_cons_of_mem a this

theorem sorted_le_getD_last (l : List ℚ) (hs : l.Sorted (· ≤ ·)) :
    ∀ x ∈ l, x ≤ l.getD (l.length - 1) 0 := by
  induction l with
  | nil => intro x hx; cases hx
  | cons a rest ih =>
      intro x hx
      cases rest with
      | nil =>
          rcases List.mem_cons.mp hx with rfl | hx
          · simp
          · cases hx
      | cons b rest2 =>
          have hmem : (b :: rest2).getD ((b :: rest2).length - 1) 0 ∈ b :: rest2 :=
            getD_last_mem _ (by simp)
          have htail : ∀ y ∈ b :: rest2, y ≤ (b :: rest2).getD ((b :: rest2).length - 1) 0 :=
            ih (List.sorted_cons.mp hs).2
          rcases List.mem_cons.mp hx with rfl | hx
          · have ha : x ≤ (b :: rest2).getD ((b :: rest2).length - 1) 0 :=
              (List.sorted_cons.mp hs).1 _ hmem
            simpa using ha
          · simpa using htail x hx

theorem getD_zero_eq_headD (l : List ℚ) : l.getD 0 0 = l.headD 0 := by
  cases l <;> simp

theorem clampIdx_eq (n idx : ℤ) (hn : 1 ≤ n) :
    (if idx < 0 then (0 : ℤ) else if n ≤ idx then n - 1 else idx) =
      max 0 (min (n - 1) idx) := by
  rw [max_def, min_def]
  split_ifs <;> omega

theorem ceil_le_zero_of_nonpos (q : ℚ) (n : ℕ) (hq : q ≤ 0) : ⌈q * (n : ℚ)⌉ ≤ 0 := by
  have h : q * (n : ℚ) ≤ 0 := mul_nonpos_iff.mpr (Or.inr ⟨hq, by positivity⟩)
  exact Int.ceil_le.mpr (by exact_mod_cast h)

theorem le_ceil_of_one_le (q : ℚ) (n : ℕ) (hq : 1 ≤ q) : (n : ℤ) ≤ ⌈q * (n : ℚ)⌉ := by
  have h : (n : ℚ) ≤ q * (n : ℚ) := le_mul_of_one_le_left (by positivity) hq
  calc (n : ℤ) = ⌈(n : ℚ)⌉ := by simp
    _ ≤ ⌈q * (n : ℚ)⌉ := Int.ceil_le_ceil h

theorem specQuantileValue_nonpos (data : List ℚ) (hdne : data ≠ []) (q : ℚ) (hq : q ≤ 0) :
    specQuantileValue data q = data.headD 0 := by
  have hn : 1 ≤ (data.length : ℤ) := by
    have := List.length_pos.mpr hdne
    omega
  have hceil := ceil_le_zero_of_nonpos q data.length hq
  have hidx : max 0 (min ((data.length : ℤ) - 1) (⌈q * (data.length : ℚ)⌉ - 1)) = 0 := by
    rw [max_def, min_def]
    split_ifs <;> omega
  rw [specQuantileValue, hidx]
  exact getD_zero_eq_headD data

theorem specQuantileValue_one_le (data : List ℚ) (hdne : data ≠ []) (q : ℚ) (hq : 1 ≤ q) :
    specQuantileValue data q = data.getD (data.length - 1) 0 := by
  have hn : 1 ≤ (data.length : ℤ) := by
    have := List.length_pos.mpr hdne
    omega
  have hceil := le_ceil_of_one_le q data.length hq
  have hidx : max 0 (min ((data.length : ℤ) - 1) (⌈q * (data.length : ℚ)⌉ - 1)) =
      (data.length : ℤ) - 1 := by
    rw [max_def, min_def]
    split_ifs <;> omega
  rw [specQuantileValue, hidx]
  congr 1
  omega

theorem quantileValue_eq_spec (data : List ℚ) (hdne : data ≠ []) (q : ℚ) :
    (if q ≤ 0 then ({ quantile := q, value := data.headD 0 } : Quantile)
     else if 1 ≤ q then { quantile := q, value := data.getD (data.length - 1) 0 }
     else
       { quantile := q,
         value := data.getD
           (if (⌈q * (data.length : ℚ)⌉ - 1 : ℤ) < 0 then (0 : ℤ)
            else if (data.length : ℤ) ≤ ⌈q * (data.length : ℚ)⌉ - 1 then (data.length : ℤ) - 1
            else ⌈q * (data.length : ℚ)⌉ - 1).toNat 0 }) =
    { quantile := q, value := specQuantileValue data q } := by
  have hn : 1 ≤ (data.length : ℤ) := by
    have := List.length_pos.mpr hdne
    omega
  by_cases h0 : q ≤ 0
  · rw [if_pos h0, specQuantileValue_nonpos data hdne q h0]
  · rw [if_neg h0]
    by_cases h1 : 1 ≤ q
    · rw [if_pos h1, specQuantileValue_one_le data hdne q h1]
    · rw [if_neg h1, specQuantileValue, clampIdx_eq _ _ hn]

/-- C4: for every non-empty reservoir, quantilesFromSamples reports for
each objective q the element of the sorted reservoir at index
ceil(q·n) - 1 clamped to [0, n-1]; in particular q ≤ 0 yields the minimum
sample and q ≥ 1 the maximum sample. -/
theorem C4_summary_quantile (samples objectives : List ℚ) (hne : samples ≠ []) :
    quantilesFromSamples samples objectives =
      objectives.map (fun q =>
        { quantile := q, value := specQuantileValue (samples.insertionSort (· ≤ ·)) q }) ∧
    (∀ q : ℚ, q ≤ 0 →
      specQuantileValue (samples.insertionSort (· ≤ ·)) q ∈ samples ∧
      ∀ x ∈ samples, specQuantileValue (samples.insertionSort (· ≤ ·)) q ≤ x) ∧
    (∀ q : ℚ, 1 ≤ q →
      specQuantileValue (samples.insertionSort (· ≤ ·)) q ∈ samples ∧
      ∀ x ∈ samples, x ≤ specQuantileValue (samples.insertionSort (· ≤ ·)) q) := by
  have hperm : (samples.insertionSort (· ≤ ·)).Perm samples :=
    List.perm_insertionSort (· ≤ ·) samples
  have hsorted : (samples.insertionSort (· ≤ ·)).Sorted (· ≤ ·) :=
    List.sorted_insertionSort (· ≤ ·) samples
  have hdne : samples.insertionSort (· ≤ ·) ≠ [] := by
    intro hnil
    have h2 : samples.Perm [] := by
      rw [← hnil]
      exact hperm.symm
    exact hne h2.eq_nil
  refine ⟨?_, ?_, ?_⟩
  · unfold quantilesFromSamples
    by_cases hobj : objectives = []
    · subst hobj
      simp
    · rw [if_neg (by simp [hne, hobj])]
      refine List.map_eq_map_iff.mpr (fun q _ => ?_)
      exact quantileValue_eq_spec _ hdne q
  · intro q hq
    rw [specQuantileValue_nonpos _ hdne q hq]
    refine ⟨hperm.mem_iff.mp (headD_mem _ hdne), fun x hx => ?_⟩
    exact sorted_headD_le _ hsorted x (hperm.mem_iff.mpr hx)
  · intro q hq
    rw [specQuantileValue_one_le _ hdne q hq]
    refine ⟨hperm.mem_iff.mp (getD_last_mem _ hdne), fun x hx => ?_⟩
    exact sorted_le_getD_last _ hsorted x (hperm.mem_iff.mpr hx)

/-- Witness for C4 at the reservoir [3, 1, 2] and objectives [0, 1/2, 1]. -/
theorem C4_witness :
    quantilesFromSamples [3, 1, 2] [0, 1/2, 1] =
      ([0, 1/2, 1] : List ℚ).map (fun q =>
        { quantile := q, value := specQuantileValue (([3, 1, 2] : List ℚ).insertionSort (· ≤ ·)) q }) ∧
    (∀ q : ℚ, q ≤ 0 →
      specQuantileValue (([3, 1, 2] : List ℚ).insertionSort (· ≤ ·)) q ∈ ([3, 1, 2] : List ℚ) ∧
      ∀ x ∈ ([3, 1, 2] : List ℚ),
        specQuantileValue (([3, 1, 2] : List ℚ).insertionSort (· ≤ ·)) q ≤ x) ∧
    (∀ q : ℚ, 1 ≤ q →
      specQuantileValue (([3, 1, 2] : List ℚ).insertionSort (· ≤ ·)) q ∈ ([3, 1, 2] : List ℚ) ∧
      ∀ x ∈ ([3, 1, 2] : List ℚ),
        x ≤ specQuantileValue (([3, 1, 2] : List ℚ).insertionSort (· ≤ ·)) q) :=
  C4_summary_quantile [3, 1, 2] [0, 1/2, 1] (by simp)

theorem add_emod_emod (a b n : ℤ) : (a + b % n) % n = (a + b) % n := by
  conv_lhs => rw [Int.add_emod, Int.emod_emod_of_dvd b dvd_rfl]
  rw [← Int.add_emod]

theorem uintCounterAdd_modular (s : ℕ) (v : ℚ) :
    (((s + goUint64OfFloat v) % 2 ^ 64 : ℕ) : ℤ) = ((s : ℤ) + ratTrunc v) % 2 ^ 64 := by
  have hnn : 0 ≤ (ratTrunc v).emod (2 ^ 64) :=
    Int.emod_nonneg _ (by norm_num)
  have hcast : ((goUint64OfFloat v : ℕ) : ℤ) = (ratTrunc v) % 2 ^ 64 := by
    rw [goUint64OfFloat, Int.toNat_of_nonneg hnn]
    rfl
  push_cast
  rw [hcast]
  have e : (2 : ℤ) ^ 64 = 18446744073709551616 := by norm_num
  rw [e]
  omega

/-- C10: Add on VictoriaCounter and OptimizedCounter goes through the Go
conversion uint64(v), so each Add(v) raises the stored total by the
integer truncation of v modulo 2^64: Add(2.5) adds 2 and a negative
argument wraps, unlike the float-valued native metricCounter whose
Add(2.5) adds exactly 2.5. -/
theorem C10_truncating_counter_add :
    (∀ (c : VictoriaCounter) (v : ℚ),
      ((c.add v).value : ℤ) = ((c.value : ℤ) + ratTrunc v) % 2 ^ 64) ∧
    (∀ (c : OptimizedCounter) (v : ℚ),
      ((c.add v).value : ℤ) = ((c.value : ℤ) + ratTrunc v) % 2 ^ 64) ∧
    ((NewVictoriaCounter "req" "h").add (5/2)).get = 2 ∧
    ((NewOptimizedCounter "req" "h").add (5/2)).get = 2 ∧
    ((NewVictoriaCounter "req" "h").add (-3)).value = 2 ^ 64 - 3 ∧
    ((newCounter "req" "h").add (5/2)).get = 5/2 ∧
    ((NewVictoriaCounter "req" "h").add (5/2)).get ≠ ((newCounter "req" "h").add (5/2)).get := by
  have htr : ratTrunc (5/2) = 2 := by
    have h1 : ((5 : ℚ)/2).num = 5 := by norm_num
    have h2 : ((5 : ℚ)/2).den = 2 := by norm_num
    rw [ratTrunc, h1, h2]
    decide
  have htrneg : ratTrunc (-3) = -3 := by
    have h1 : ((-3 : ℚ)).num = -3 := by norm_num
    have h2 : ((-3 : ℚ)).den = 1 := by norm_num
    rw [ratTrunc, h1, h2]
    decide
  have hgo : goUint64OfFloat (5/2) = 2 := by
    rw [goUint64OfFloat, htr]
    decide
  have hgoneg : goUint64OfFloat (-3) = 2 ^ 64 - 3 := by
    rw [goUint64OfFloat, htrneg]
    decide
  refine ⟨fun c v => uintCounterAdd_modular c.value v,
    fun c v => uintCounterAdd_modular c.value v, ?_, ?_, ?_, ?_, ?_⟩
  · rw [VictoriaCounter.get]
    show (((0 + goUint64OfFloat (5/2)) % 2 ^ 64 : ℕ) : ℚ) = 2
    rw [hgo]
    norm_num
  · rw [OptimizedCounter.get]
    show (((0 + goUint64OfFloat (5/2)) % 2 ^ 64 : ℕ) : ℚ) = 2
    rw [hgo]
    norm_num
  · show (0 + goUint64OfFloat (-3)) % 2 ^ 64 = 2 ^ 64 - 3
    rw [hgoneg]
    decide
  · rw [MetricCounter.get]
    show (0 : ℚ) + 5/2 = 5/2
    norm_num
  · rw [VictoriaCounter.get, MetricCounter.get]
    show (((0 + goUint64OfFloat (5/2)) % 2 ^ 64 : ℕ) : ℚ) ≠ (0 : ℚ) + 5/2
    rw [hgo]
    norm_num

theorem mergeLoop_none_some (stream : List (String × Metric)) :
    ∀ (step : ℕ) (fams : List (String × MetricFamily)),
      ∃ out, mergeLoop none step fams stream = some out := by
  induction stream with
  | nil => exact fun step fams => ⟨fams, rfl⟩
  | cons p rest ih =>
      intro step fams
      simpa [mergeLoop, ctxDoneAt] using ih (step + 1) (insertMetricByName fams p.1 p.2)

theorem mergeLoop_abort (d : ℕ) :
    ∀ (stream : List (String × Metric)) (step : ℕ) (fams : List (String × MetricFamily)),
      d < step + stream.length → step ≤ d →
      mergeLoop (some d) step fams stream = none := by
  intro stream
  induction stream with
  | nil =>
      intro step fams h1 h2
      simp at h1
      omega
  | cons p rest ih =>
      intro step fams h1 h2
      by_cases hstep : d ≤ step
      · have hde : ctxDoneAt (some d) step = true := by
          simp [ctxDoneAt, hstep]
        simp [mergeLoop, hde]
      · have hde : ctxDoneAt (some d) step = false := by
          simp [ctxDoneAt]
          omega
        simp only [mergeLoop, hde, Bool.false_eq_true, if_false]
        refine ih (step + 1) (insertMetricByName fams p.1 p.2) ?_ ?_
        · simp at h1
          omega
        · omega

theorem filterMap_panic_head (l : List CollectOutcome)
    (h : ∃ c ∈ l, c.panicMsg ≠ none) :
    ∃ m, (l.filterMap CollectOutcome.panicMsg).head? = some m := by
  induction l with
  | nil =>
      obtain ⟨c, hc, _⟩ := h
      cases hc
  | cons a rest ih =>
      cases ha : a.panicMsg with
      | some m => exact ⟨m, by simp [List.filterMap_cons, ha]⟩
      | none =>
          obtain ⟨c, hc, hcp⟩ := h
          rcases List.mem_cons.mp hc with rfl | hc2
          · exact (hcp ha).elim
          · obtain ⟨m, hm⟩ := ih ⟨c, hc2, hcp⟩
            exact ⟨m, by simp [List.filterMap_cons, ha, hm]⟩

/-- Counterexample for C6 as stated: with one healthy collector and one
panicking collector the call does return a non-nil error, but the
returned family list is nil, so it does not contain the healthy
metrics of that collector. -/
theorem C6_counterexample :
    (gatherWithContext none c6Collectors).2 ≠ none ∧
    ¬ ∃ mf ∈ (gatherWithContext none c6Collectors).1, mf.name = "good_metric" := by
  have hres : gatherWithContext none c6Collectors =
      ([], some ("collector panicked: " ++ "boom")) := by
    rfl
  rw [hres]
  refine ⟨by simp, ?_⟩
  rintro ⟨mf, hmf, -⟩
  cases hmf

/-- C6 amended: a panicking collector always yields a recovered,
non-nil "collector panicked" error (the panic never escapes the
aggregate call), but the metrics of the non-panicking collectors are
discarded: the returned family list is nil. -/
theorem C6_panic_recovered (collectors : List CollectOutcome)
    (hpanic : ∃ c ∈ collectors, c.panicMsg ≠ none) :
    ∃ msg, gatherWithContext none collectors =
      ([], some ("collector panicked: " ++ msg)) := by
  obtain ⟨fams2, hm⟩ :=
    mergeLoop_none_some ((collectors.map CollectOutcome.forwarded).flatten) 0 []
  obtain ⟨msg, hmsg⟩ := filterMap_panic_head collectors hpanic
  refine ⟨msg, ?_⟩
  rw [gatherWithContext, if_neg (by simp)]
  rw [hm, hmsg]

/-- Witness for C6 at the concrete two-collector set. -/
theorem C6_witness :
    (∃ c ∈ c6Collectors, c.panicMsg ≠ none) ∧
    ∃ msg, gatherWithContext none c6Collectors =
      ([], some ("collector panicked: " ++ msg)) :=
  ⟨⟨CollectOutcome.panicked [] "boom", by simp [c6Collectors], by simp [CollectOutcome.panicMsg]⟩,
    C6_panic_recovered c6Collectors
      ⟨CollectOutcome.panicked [] "boom", by simp [c6Collectors],
        by simp [CollectOutcome.panicMsg]⟩⟩

/-- Counterexample for C7 as stated: when the deadline expires mid-merge
the call returns the deadline error, but the family list is nil; the
already-merged partial results (the m1 family) are discarded. -/
theorem C7_counterexample :
    (gatherWithContext (some 1) c7Collectors).2 = some "context deadline exceeded" ∧
    (gatherWithContext (some 1) c7Collectors).1 = [] := by
  have hres : gatherWithContext (some 1) c7Collectors =
      ([], some "context deadline exceeded") := by
    rfl
  rw [hres]
  exact ⟨rfl, rfl⟩

/-- C7 amended: a deadline observed at a merge poll before the stream is
exhausted aborts the call with the deadline-exceeded error and a nil
family list: accumulated partial results are discarded, not returned. -/
theorem C7_deadline_mid_merge (collectors : List CollectOutcome) (d : ℕ)
    (hd1 : 1 ≤ d)
    (hd2 : d < ((collectors.map CollectOutcome.forwarded).flatten).length) :
    gatherWithContext (some d) collectors = ([], some "context deadline exceeded") := by
  rw [gatherWithContext, if_neg (by simp; omega)]
  rw [mergeLoop_abort d ((collectors.map CollectOutcome.forwarded).flatten) 0 []
    (by omega) (by omega)]

/-- Witness for C7 at the concrete one-collector set with the deadline
after one merged metric. -/
theorem C7_witness :
    1 ≤ 1 ∧
    1 < ((c7Collectors.map CollectOutcome.forwarded).flatten).length ∧
    gatherWithContext (some 1) c7Collectors = ([], some "context deadline exceeded") :=
  ⟨le_refl 1, by simp [c7Collectors, CollectOutcome.forwarded],
    C7_deadline_mid_merge c7Collectors 1 (le_refl 1)
      (by simp [c7Collectors, CollectOutcome.forwarded])⟩

theorem multiGatherLoop_mem (l : List (String × Except String (List MetricFamily)))
    (out : List MetricFamily) (hout : multiGatherLoop false l = Except.ok out) :
    ∀ mf ∈ out, ∃ ns2 ms mf0, (ns2, Except.ok ms) ∈ l ∧ mf0 ∈ ms ∧
      mf.name = ns2 ++ "_" ++ mf0.name ∧ mf.help = mf0.help ∧
      mf.type = mf0.type ∧ mf.metrics = mf0.metrics := by
  induction l generalizing out with
  | nil =>
      simp only [multiGatherLoop, Except.ok.injEq] at hout
      subst hout
      intro mf hmf
      cases hmf
  | cons p rest ih =>
      intro mf hmf
      rw [multiGatherLoop, if_neg (by simp)] at hout
      cases hp : p.2 with
      | error e => rw [hp] at hout; cases hout
      | ok ms =>
          rw [hp] at hout
          cases hr : multiGatherLoop false rest with
          | error e => rw [hr] at hout; cases hout
          | ok acc =>
              rw [hr] at hout
              simp only [Except.ok.injEq] at hout
              subst hout
              rcases List.mem_append.mp hmf with hleft | hright
              · obtain ⟨mf0, hmf0, heq⟩ := List.mem_map.mp hleft
                subst heq
                exact ⟨p.1, ms, mf0, by rw [← hp]; exact List.mem_cons_self p rest,
                  hmf0, rfl, rfl, rfl, rfl⟩
              · obtain ⟨ns2, ms2, mf0, hin, hrest⟩ := ih acc hr mf hright
                exact ⟨ns2, ms2, mf0, List.mem_cons_of_mem p hin, hrest⟩

/-- Counterexample for C8 as stated: the composite gatherer concatenates
in iteration order and never sorts, so with registration order b, a the
gathered family names come out as b_up, a_up, which is not sorted by
name. -/
theorem C8_counterexample :
    c8G.GatherWithContext false = Except.ok [upFam "b_up", upFam "a_up"] ∧
    ¬ ([upFam "b_up", upFam "a_up"].map MetricFamily.name).Sorted (· ≤ ·) := by
  refine ⟨rfl, fun hs => ?_⟩
  have hnames : ([upFam "b_up", upFam "a_up"].map MetricFamily.name) = ["b_up", "a_up"] := rfl
  rw [hnames] at hs
  have h1 : ("b_up" : String) ≤ "a_up" :=
    (List.sorted_cons.mp hs).1 "a_up" (List.mem_singleton.mpr rfl)
  have h2 : ¬ (("b_up" : String) ≤ "a_up") := by
    simp
    decide
  exact h2 h1

/-- C8 amended, parts (a) and (b): every family produced by a successful
gather of the composite gatherer carries the `ns_` prefix of the
namespace whose gatherer contributed it and is otherwise unchanged, so
no name appears unprefixed; registering a second gatherer under an
already-used namespace returns an error (the functional model returns no
new state, so the registered set is unchanged). The output is the
concatenation of the per-namespace families in iteration order; it is
not sorted (see the counterexample). -/
theorem C8_prefix_and_duplicate (g : MultiGathererWC) (ns : String)
    (gatherer : Except String (List MetricFamily)) :
    (∀ out, g.GatherWithContext false = Except.ok out →
      ∀ mf ∈ out, ∃ ns2 ms mf0, (ns2, Except.ok ms) ∈ g.gatherers ∧ mf0 ∈ ms ∧
        mf.name = ns2 ++ "_" ++ mf0.name ∧ mf.help = mf0.help ∧
        mf.type = mf0.type ∧ mf.metrics = mf0.metrics) ∧
    ((g.gatherers.map Prod.fst).contains ns →
      g.register ns gatherer =
        Except.error ("gatherer already registered for namespace: " ++ ns)) := by
  constructor
  · intro out hout
    exact multiGatherLoop_mem g.gatherers out hout
  · intro hdup
    rw [MultiGathererWC.register, if_pos hdup]

/-- Witness for C8 at the concrete two-namespace state. -/
theorem C8_witness :
    ((c8G.gatherers.map Prod.fst).contains "b" = true) ∧
    (c8G.register "b" (Except.ok []) =
      Except.error ("gatherer already registered for namespace: " ++ "b")) ∧
    (∀ mf ∈ [upFam "b_up", upFam "a_up"],
      ∃ ns2 ms mf0, (ns2, Except.ok ms) ∈ c8G.gatherers ∧ mf0 ∈ ms ∧
        mf.name = ns2 ++ "_" ++ mf0.name ∧ mf.help = mf0.help ∧
        mf.type = mf0.type ∧ mf.metrics = mf0.metrics) :=
  ⟨by decide,
    (C8_prefix_and_duplicate c8G "b" (Except.ok [])).2 (by decide),
    (C8_prefix_and_duplicate c8G "b" (Except.ok [])).1 [upFam "b_up", upFam "a_up"] rfl⟩

/-- The scrape-timeout header selection, unfolded once (zeta-reduced). -/
theorem parseScrapeTimeout_eq (headers : List (String × String)) :
    parseScrapeTimeout headers =
      (if (if headerGet headers "X-Scrape-Timeout-Seconds" = ""
           then headerGet headers "X-Prometheus-Scrape-Timeout-Seconds"
           else headerGet headers "X-Scrape-Timeout-Seconds") = "" then 0
       else
         match parseGoFloat
           (if headerGet headers "X-Scrape-Timeout-Seconds" = ""
            then headerGet headers "X-Prometheus-Scrape-Timeout-Seconds"
            else headerGet headers "X-Scrape-Timeout-Seconds") with
         | none => 0
         | some seconds => if seconds ≤ 0 then 0 else seconds) := rfl

/-- Counterexample for C9 as stated: with a configured 10-second timeout
and a 1-second scrape-timeout header, the handler uses 10 seconds, not
the smaller of the two. -/
theorem C9_counterexample :
    effectiveTimeout 10 c9Headers = 10 ∧
    min 10 (parseScrapeTimeout c9Headers) = 1 ∧
    effectiveTimeout 10 c9Headers ≠ min 10 (parseScrapeTimeout c9Headers) := by
  have hget : headerGet c9Headers "X-Scrape-Timeout-Seconds" = "1" := by
    rfl
  have hone : parseGoFloat "1" = some 1 := by
    have h : "1".toList = ['1'] := rfl
    simp [parseGoFloat, h, parseUnsignedDec, digitsVal]
  have hp : parseScrapeTimeout c9Headers = 1 := by
    rw [parseScrapeTimeout_eq, hget]
    rw [if_neg (by simp), if_neg (by simp), hone]
    norm_num
  have he : effectiveTimeout 10 c9Headers = 10 := by
    rw [effectiveTimeout, if_neg (by norm_num)]
  refine ⟨he, ?_, ?_⟩
  · rw [hp]
    norm_num
  · rw [he, hp]
    norm_num

/-- C9 amended: the configured non-zero timeout always wins and the
header is ignored; only a zero configured timeout consults the selected
scrape-timeout header, with an absent, unparsable or non-positive header
yielding no deadline, and a positive parsed value yielding that value in
seconds. -/
theorem C9_timeout_precedence (optsTimeout : ℚ) (headers : List (String × String))
    (hv : String)
    (hv_sel : hv = (if headerGet headers "X-Scrape-Timeout-Seconds" = ""
                    then headerGet headers "X-Prometheus-Scrape-Timeout-Seconds"
                    else headerGet headers "X-Scrape-Timeout-Seconds")) :
    (optsTimeout ≠ 0 →
      effectiveTimeout optsTimeout headers = optsTimeout ∧
      ∀ headers2, effectiveTimeout optsTimeout headers2 = effectiveTimeout optsTimeout headers) ∧
    (hv = "" → effectiveTimeout 0 headers = 0) ∧
    (parseGoFloat hv = none → effectiveTimeout 0 headers = 0) ∧
    (∀ sec, parseGoFloat hv = some sec → sec ≤ 0 → effectiveTimeout 0 headers = 0) ∧
    (∀ sec, parseGoFloat hv = some sec → 0 < sec → hv ≠ "" →
      effectiveTimeout 0 headers = sec) ∧
    deadlineApplied 0 = false := by
  have hbase : effectiveTimeout 0 headers = parseScrapeTimeout headers := by
    rw [effectiveTimeout, if_pos rfl]
  refine ⟨?_, ?_, ?_, ?_, ?_, by rfl⟩
  · intro hopts
    refine ⟨by rw [effectiveTimeout, if_neg hopts], fun headers2 => ?_⟩
    rw [effectiveTimeout, if_neg hopts, effectiveTimeout, if_neg hopts]
  · intro hempty
    rw [hbase, parseScrapeTimeout_eq, ← hv_sel, if_pos hempty]
  · intro hnone
    rw [hbase, parseScrapeTimeout_eq, ← hv_sel]
    by_cases hempty : hv = ""
    · rw [if_pos hempty]
    · rw [if_neg hempty, hnone]
  · intro sec hsec hnonpos
    rw [hbase, parseScrapeTimeout_eq, ← hv_sel]
    by_cases hempty : hv = ""
    · rw [if_pos hempty]
    · rw [if_neg hempty, hsec]
      simp [hnonpos]
  · intro sec hsec hpos hnonempty
    rw [hbase, parseScrapeTimeout_eq, ← hv_sel, if_neg hnonempty, hsec]
    simp only [if_neg (not_le.mpr hpos)]

/-- Witness for C9 at a configured 3-second timeout and a 2.5-second
header value. -/
theorem C9_witness :
    ("2.5" : String) =
      (if headerGet [("X-Scrape-Timeout-Seconds", "2.5")] "X-Scrape-Timeout-Seconds" = ""
       then headerGet [("X-Scrape-Timeout-Seconds", "2.5")] "X-Prometheus-Scrape-Timeout-Seconds"
       else headerGet [("X-Scrape-Timeout-Seconds", "2.5")] "X-Scrape-Timeout-Seconds") ∧
    (((3 : ℚ) ≠ 0 →
      effectiveTimeout 3 [("X-Scrape-Timeout-Seconds", "2.5")] = 3 ∧
      ∀ headers2, effectiveTimeout 3 headers2 =
        effectiveTimeout 3 [("X-Scrape-Timeout-Seconds", "2.5")]) ∧
    (("2.5" : String) = "" → effectiveTimeout 0 [("X-Scrape-Timeout-Seconds", "2.5")] = 0) ∧
    (parseGoFloat "2.5" = none → effectiveTimeout 0 [("X-Scrape-Timeout-Seconds", "2.5")] = 0) ∧
    (∀ sec, parseGoFloat "2.5" = some sec → sec ≤ 0 →
      effectiveTimeout 0 [("X-Scrape-Timeout-Seconds", "2.5")] = 0) ∧
    (∀ sec, parseGoFloat "2.5" = some sec → 0 < sec → ("2.5" : String) ≠ "" →
      effectiveTimeout 0 [("X-Scrape-Timeout-Seconds", "2.5")] = sec) ∧
    deadlineApplied 0 = false) :=
  ⟨rfl, C9_timeout_precedence 3 [("X-Scrape-Timeout-Seconds", "2.5")] "2.5" rfl⟩

/-- Counterexample for C5 as stated: encoding and then decoding the
counter/gauge/histogram set does not yield families with identical
names. The `_total`-suffixed counter sample folds into a new base-name
family `requests`, and the declared `requests_total` family comes back
with no metrics. -/
theorem C5_counterexample :
    ¬ ((ParseText (EncodeText famsC5)).map Prod.fst = famsC5.map MetricFamily.name) ∧
    (ParseText (EncodeText famsC5)).lookup "requests_total" =
      some { name := "requests_total", help := "Total requests", type := MetricType.counter,
             metrics := [] } ∧
    (ParseText (EncodeText famsC5)).lookup "requests" =
      some { name := "requests", help := "", type := MetricType.untyped,
             metrics := [{ labels := [], value := { value := 5 } }] } := by
  refine ⟨?_, rfl, rfl⟩
  intro h
  have h1 : (ParseText (EncodeText famsC5)).map Prod.fst =
      ["requests_total", "requests", "temperature", "latency_seconds"] := rfl
  have h2 : famsC5.map MetricFamily.name =
      ["requests_total", "temperature", "latency_seconds"] := rfl
  rw [h1, h2] at h
  exact absurd h (by decide)

/-- C5 amended: the round trip preserves the name of every declared family,
help and type; the suffix-free counter and the gauge also keep their
exact label sets and values; the histogram family keeps name, help and
type but its content decodes flattened — one untyped-valued sample per
bucket carrying an extra `le` label, plus the `_sum` and `_count`
samples folded into the same family — while a `_total`-suffixed counter
name additionally splits off a base-name family (see the
counterexample). -/
theorem C5_roundtrip :
    (ParseText (EncodeText famsC5A)).map Prod.fst = famsC5A.map MetricFamily.name ∧
    (ParseText (EncodeText famsC5A)).lookup "http_requests" = some c5ACounterFam ∧
    (ParseText (EncodeText famsC5A)).lookup "temperature" = some c5GaugeFam ∧
    (ParseText (EncodeText famsC5A)).lookup "latency_seconds" =
      some { name := "latency_seconds", help := "Request latency",
             type := MetricType.histogram,
             metrics := [
               { labels := [{ name := "le", value := "1" }], value := { value := 1 } },
               { labels := [{ name := "le", value := "5" }], value := { value := 2 } },
               { labels := [{ name := "le", value := "+Inf" }], value := { value := 3 } },
               { labels := [], value := { value := 8 } },
               { labels := [], value := { value := 3 } }] } :=
  ⟨rfl, rfl, rfl, rfl⟩

/-- Witness for C3 at buckets [1,5] and observations 0.5, 1.2, 6.0. -/
theorem C3_witness :
    ((((newHistogram "lat" "h" [1, 5]).observeAll [1/2, 6/5, 6]).toMetric
        []).value.buckets.getLast?.map Bucket.cumulativeCount) =
      some (((newHistogram "lat" "h" [1, 5]).observeAll [1/2, 6/5, 6]).getCount) ∧
    0 + 1 <
      ((((newHistogram "lat" "h" [1, 5]).observeAll [1/2, 6/5, 6]).toMetric
        []).value.buckets).length ∧
    (((((newHistogram "lat" "h" [1, 5]).observeAll [1/2, 6/5, 6]).toMetric
        []).value.buckets).getD 0
          { upperBound := none, cumulativeCount := 0 }).cumulativeCount ≤
    (((((newHistogram "lat" "h" [1, 5]).observeAll [1/2, 6/5, 6]).toMetric
        []).value.buckets).getD (0 + 1)
          { upperBound := none, cumulativeCount := 0 }).cumulativeCount := by
  have hlen : 0 + 1 <
      ((((newHistogram "lat" "h" [1, 5]).observeAll [1/2, 6/5, 6]).toMetric
        []).value.buckets).length := by
    norm_num [newHistogram, MetricHistogram.observeAll, MetricHistogram.observe,
      MetricHistogram.toMetric, histCumBuckets, bucketIdxFor, DefBuckets,
      List.insertionSort, List.orderedInsert, List.replicate_succ, List.set,
      List.range_succ]
  exact ⟨(C3_histogram_cumulative [1, 5] "lat" "h" [1/2, 6/5, 6]).1, hlen,
    (C3_histogram_cumulative [1, 5] "lat" "h" [1/2, 6/5, 6]).2 0 hlen⟩

/-- Witness for C10 at a stored total of 7 and the argument 2.5. -/
theorem C10_witness :
    ((VictoriaCounter.add { value := 7, name := "n", help := "h" } (5/2)).value : ℤ) =
      ((7 : ℤ) + ratTrunc (5/2)) % 2 ^ 64 :=
  C10_truncating_counter_add.1 { value := 7, name := "n", help := "h" } (5/2)
